import Mathlib

/-!
# yggdrasil-peerman: the reconciliation engine of `main.go`

A shallow embedding of `main.go` (package `main`) together with the parts of
the Go standard library that decide its behaviour (`net/url`, `net/netip`,
`strings.ToLower`), followed by theorems about `query`, `SetPeer`,
`hasLocalPeers`, `stripQuery`, `NewServer` and `run`.

Conventions.

* A Go `string` is a sequence of bytes.  It is modelled as `Str = List Char`,
  the byte `b` being the character with code point `b`; every comparison the
  Go code makes on bytes is made here on those characters.
* `logger.Fatal` logs and calls `os.Exit(1)`; a Go panic (explicit or a
  run-time error such as a nil dereference) unwinds the stack.  Both are
  results of type `Outcome`.
* The control surface is a script of replies held by the connection; the
  requests handed to the JSON encoder are logged in order.
* The standard-library functions follow the Go 1.22 sources, function by
  function; an error return is `none`.
-/

set_option autoImplicit false

namespace Peerman

/-- A Go string, as the list of its bytes. -/
abbrev Str := List Char

/-! ## Package `strings` -/

/-- Go `strings.Cut(s, sep)` for a one-byte separator: the text before the
first `sep`, the text after it, and whether `sep` was found. -/
def Cut (sep : Char) : Str → Str × Str × Bool
  | [] => ([], [], false)
  | c :: rest =>
    if c = sep then ([], rest, true)
    else
      let r := Cut sep rest
      (c :: r.1, r.2.1, r.2.2)

/-- Go `strings.Index(s, substr)`: position of the first occurrence. -/
def Index (substr : Str) : Str → Option Nat
  | [] => if substr = [] then some 0 else none
  | c :: rest =>
    if substr.isPrefixOf (c :: rest) then some 0
    else (Index substr rest).map (· + 1)

/-- Go `strings.LastIndex(s, sep)` for a one-byte separator. -/
def LastIndexByte (sep : Char) : Str → Option Nat
  | [] => none
  | c :: rest =>
    match LastIndexByte sep rest with
    | some i => some (i + 1)
    | none => if c = sep then some 0 else none

/-- Go `strings.ToLower` on ASCII text (`'A'..'Z'` are moved to `'a'..'z'`,
every other byte is kept).  Every call in this development passes a URL scheme,
which `getScheme` restricts to ASCII letters, digits, `+`, `-` and `.`. -/
def ToLower (s : Str) : Str :=
  s.map fun c => if 'A' ≤ c ∧ c ≤ 'Z' then Char.ofNat (c.toNat + 32) else c

/-! ## Package `net/url` -/

/-- The escaping modes of `net/url`. -/
inductive encoding where
  | encodePath
  | encodePathSegment
  | encodeHost
  | encodeZone
  | encodeUserPassword
  | encodeQueryComponent
  | encodeFragment
  deriving DecidableEq, Repr

open encoding

/-- The single quote byte (0x27). -/
def quoteChar : Char := Char.ofNat 39

/-- Go `ishex`. -/
def ishex (c : Char) : Bool :=
  decide (('0' ≤ c ∧ c ≤ '9') ∨ ('a' ≤ c ∧ c ≤ 'f') ∨ ('A' ≤ c ∧ c ≤ 'F'))

/-- Go `unhex`. -/
def unhex (c : Char) : Nat :=
  if '0' ≤ c ∧ c ≤ '9' then c.toNat - 48
  else if 'a' ≤ c ∧ c ≤ 'f' then c.toNat - 97 + 10
  else if 'A' ≤ c ∧ c ≤ 'F' then c.toNat - 65 + 10
  else 0

/-- Go `shouldEscape(c, mode)`: whether byte `c` must be percent-escaped in the
given part of a URL. -/
def shouldEscape (c : Char) (mode : encoding) : Bool :=
  if ('a' ≤ c ∧ c ≤ 'z') ∨ ('A' ≤ c ∧ c ≤ 'Z') ∨ ('0' ≤ c ∧ c ≤ '9') then false
  else if (mode = encodeHost ∨ mode = encodeZone) ∧
      c ∈ ['!', '$', '&', quoteChar, '(', ')', '*', '+', ',', ';', '=', ':', '[', ']',
        '<', '>', '"'] then false
  else if c ∈ ['-', '_', '.', '~'] then false
  else if c ∈ ['$', '&', '+', ',', '/', ':', ';', '=', '?', '@'] ∧ mode = encodePath then
    decide (c = '?')
  else if c ∈ ['$', '&', '+', ',', '/', ':', ';', '=', '?', '@'] ∧
      mode = encodePathSegment then
    decide (c = '/' ∨ c = ';' ∨ c = ',' ∨ c = '?')
  else if c ∈ ['$', '&', '+', ',', '/', ':', ';', '=', '?', '@'] ∧
      mode = encodeUserPassword then
    decide (c = '@' ∨ c = '/' ∨ c = '?' ∨ c = ':')
  else if c ∈ ['$', '&', '+', ',', '/', ':', ';', '=', '?', '@'] ∧
      mode = encodeQueryComponent then true
  else if c ∈ ['$', '&', '+', ',', '/', ':', ';', '=', '?', '@'] ∧
      mode = encodeFragment then false
  else if mode = encodeFragment ∧ c ∈ ['!', '(', ')', '*'] then false
  else true

/-- First loop of Go `unescape(s, mode)`: the well-formedness check.
`false` stands for the `EscapeError` / `InvalidHostError` returns. -/
def unescapeCheck (mode : encoding) : Str → Bool
  | [] => true
  | c :: rest =>
    if c = '%' then
      match rest with
      | a :: b :: rest2 =>
        if !ishex a || !ishex b then false
        else if mode = encodeHost ∧ unhex a < 8 ∧ [c, a, b] ≠ ['%', '2', '5'] then false
        else if mode = encodeZone ∧ [c, a, b] ≠ ['%', '2', '5'] ∧
            Char.ofNat (unhex a * 16 + unhex b) ≠ ' ' ∧
            shouldEscape (Char.ofNat (unhex a * 16 + unhex b)) encodeHost = true then false
        else unescapeCheck mode rest2
      | _ => false
    else if c = '+' then unescapeCheck mode rest
    else if (mode = encodeHost ∨ mode = encodeZone) ∧ c.toNat < 128 ∧
        shouldEscape c encodeHost = true then false
    else unescapeCheck mode rest

/-- Second loop of Go `unescape(s, mode)`: the decoding.  (When the string has
no `%` and no `+` to convert, Go returns `s` itself; this loop returns the same
bytes.)  A `%` without two following bytes is excluded by `unescapeCheck`. -/
def unescapeDecode (mode : encoding) : Str → Str
  | [] => []
  | c :: rest =>
    if c = '%' then
      match rest with
      | a :: b :: rest2 => Char.ofNat (unhex a * 16 + unhex b) :: unescapeDecode mode rest2
      | _ => []
    else if c = '+' then
      (if mode = encodeQueryComponent then ' ' else '+') :: unescapeDecode mode rest
    else c :: unescapeDecode mode rest

/-- Go `unescape(s, mode)`; `none` is the error return. -/
def unescape (s : Str) (mode : encoding) : Option Str :=
  if unescapeCheck mode s then some (unescapeDecode mode s) else none

/-- Go `upperhex[n]`. -/
def upperhex (n : Nat) : Char :=
  "0123456789ABCDEF".toList.getD (n % 16) '0'

/-- Go `escape(s, mode)`. -/
def escape (mode : encoding) : Str → Str
  | [] => []
  | c :: rest =>
    if c = ' ' ∧ mode = encodeQueryComponent then '+' :: escape mode rest
    else if shouldEscape c mode then
      '%' :: upperhex (c.toNat / 16) :: upperhex (c.toNat % 16) :: escape mode rest
    else c :: escape mode rest

/-- Go `validEncoded(s, mode)`. -/
def validEncoded (mode : encoding) : Str → Bool
  | [] => true
  | c :: rest =>
    if c ∈ ['!', '$', '&', quoteChar, '(', ')', '*', '+', ',', ';', '=', ':', '@'] then
      validEncoded mode rest
    else if c = '[' ∨ c = ']' then validEncoded mode rest
    else if c = '%' then validEncoded mode rest
    else if shouldEscape c mode then false
    else validEncoded mode rest

/-- Go `stringContainsCTLByte`. -/
def stringContainsCTLByte (s : Str) : Bool :=
  s.any fun b => decide (b < ' ' ∨ b.toNat = 127)

/-- Go `validOptionalPort`: empty, or `:` followed by digits only. -/
def validOptionalPort (port : Str) : Bool :=
  match port with
  | [] => true
  | c :: rest => decide (c = ':') && rest.all fun b => decide ('0' ≤ b ∧ b ≤ '9')

/-- Go `validUserinfo`. -/
def validUserinfo (s : Str) : Bool :=
  s.all fun r =>
    decide (('A' ≤ r ∧ r ≤ 'Z') ∨ ('a' ≤ r ∧ r ≤ 'z') ∨ ('0' ≤ r ∧ r ≤ '9') ∨
      r ∈ ['-', '.', '_', ':', '~', '!', '$', '&', quoteChar, '(', ')', '*', '+', ',', ';',
        '=', '%', '@'])

/-- Go `url.Userinfo`. -/
structure Userinfo where
  username : Str
  password : Str
  passwordSet : Bool
  deriving DecidableEq, Repr

/-- Go `url.URL`. -/
structure URL where
  Scheme : Str := []
  Opaque : Str := []
  User : Option Userinfo := none
  Host : Str := []
  Path : Str := []
  RawPath : Str := []
  OmitHost : Bool := false
  ForceQuery : Bool := false
  RawQuery : Str := []
  Fragment : Str := []
  RawFragment : Str := []
  deriving DecidableEq, Repr

/-- Loop of Go `getScheme`: `i` is the index of the byte at the head of the
remaining text. -/
def getSchemeLoop (rawURL : Str) : Nat → Str → Option (Str × Str)
  | _, [] => some ([], rawURL)
  | i, c :: rest =>
    if ('a' ≤ c ∧ c ≤ 'z') ∨ ('A' ≤ c ∧ c ≤ 'Z') then getSchemeLoop rawURL (i + 1) rest
    else if ('0' ≤ c ∧ c ≤ '9') ∨ c = '+' ∨ c = '-' ∨ c = '.' then
      if i = 0 then some ([], rawURL) else getSchemeLoop rawURL (i + 1) rest
    else if c = ':' then
      if i = 0 then none else some (rawURL.take i, rest)
    else some ([], rawURL)

/-- Go `getScheme(rawURL)`: `(scheme, path)`, or `none` for the error
"missing protocol scheme". -/
def getScheme (rawURL : Str) : Option (Str × Str) :=
  getSchemeLoop rawURL 0 rawURL

/-- Go `parseHost`. -/
def parseHost (host : Str) : Option Str :=
  if ['['].isPrefixOf host then
    match LastIndexByte ']' host with
    | none => none
    | some i =>
      if !validOptionalPort (host.drop (i + 1)) then none
      else
        match Index ['%', '2', '5'] (host.take i) with
        | some zone =>
          match unescape (host.take zone) encodeHost,
            unescape ((host.take i).drop zone) encodeZone,
            unescape (host.drop i) encodeHost with
          | some host1, some host2, some host3 => some (host1 ++ host2 ++ host3)
          | _, _, _ => none
        | none => unescape host encodeHost
  else
    match LastIndexByte ':' host with
    | some i =>
      if !validOptionalPort (host.drop i) then none else unescape host encodeHost
    | none => unescape host encodeHost

/-- Go `parseAuthority`: `(user, host)`. -/
def parseAuthority (authority : Str) : Option (Option Userinfo × Str) :=
  match LastIndexByte '@' authority with
  | none =>
    match parseHost authority with
    | none => none
    | some host => some (none, host)
  | some i =>
    match parseHost (authority.drop (i + 1)) with
    | none => none
    | some host =>
      let userinfo := authority.take i
      if !validUserinfo userinfo then none
      else if ':' ∉ userinfo then
        match unescape userinfo encodeUserPassword with
        | none => none
        | some name => some (some ⟨name, [], false⟩, host)
      else
        match unescape (Cut ':' userinfo).1 encodeUserPassword,
          unescape (Cut ':' userinfo).2.1 encodeUserPassword with
        | some name, some pass => some (some ⟨name, pass, true⟩, host)
        | _, _ => none

/-- Go `(*URL).setPath`. -/
def setPath (u : URL) (p : Str) : Option URL :=
  match unescape p encodePath with
  | none => none
  | some path =>
    if p = escape encodePath path then some { u with Path := path, RawPath := [] }
    else some { u with Path := path, RawPath := p }

/-- Go `(*URL).setFragment`. -/
def setFragment (u : URL) (f : Str) : Option URL :=
  match unescape f encodeFragment with
  | none => none
  | some frag =>
    if f = escape encodeFragment frag then some { u with Fragment := frag, RawFragment := [] }
    else some { u with Fragment := frag, RawFragment := f }

/-- Go `parse(rawURL, viaRequest)`; `none` is the error return. -/
def parse (rawURL : Str) (viaRequest : Bool) : Option URL :=
  if stringContainsCTLByte rawURL then none
  else if rawURL = [] ∧ viaRequest = true then none
  else if rawURL = ['*'] then some { Path := ['*'] }
  else
    match getScheme rawURL with
    | none => none
    | some (scheme0, rest0) =>
      let scheme := ToLower scheme0
      let forceQuery : Bool := ['?'].isSuffixOf rest0 && rest0.count '?' == 1
      let rest := if forceQuery then rest0.dropLast else (Cut '?' rest0).1
      let rawQuery := if forceQuery then [] else (Cut '?' rest0).2.1
      let url : URL := { Scheme := scheme, ForceQuery := forceQuery, RawQuery := rawQuery }
      if ¬ ['/'].isPrefixOf rest ∧ scheme ≠ [] then some { url with Opaque := rest }
      else if ¬ ['/'].isPrefixOf rest ∧ viaRequest = true then none
      else if ¬ ['/'].isPrefixOf rest ∧ ':' ∈ (Cut '/' rest).1 then none
      else if (scheme ≠ [] ∨ (viaRequest = false ∧ ¬ ['/', '/', '/'].isPrefixOf rest)) ∧
          ['/', '/'].isPrefixOf rest then
        let authority0 := rest.drop 2
        let authority :=
          match Index ['/'] authority0 with
          | some i => authority0.take i
          | none => authority0
        let rest2 :=
          match Index ['/'] authority0 with
          | some i => authority0.drop i
          | none => []
        match parseAuthority authority with
        | none => none
        | some (user, host) => setPath { url with User := user, Host := host } rest2
      else if scheme ≠ [] ∧ ['/'].isPrefixOf rest then
        setPath { url with OmitHost := true } rest
      else setPath url rest

/-- Go `url.Parse(rawURL)`; `none` is the error return (with a nil `*URL`). -/
def Parse (rawURL : Str) : Option URL :=
  match parse (Cut '#' rawURL).1 false with
  | none => none
  | some url =>
    if (Cut '#' rawURL).2.1 = [] then some url
    else setFragment url (Cut '#' rawURL).2.1

/-- Go `(*URL).EscapedPath`. -/
def EscapedPath (u : URL) : Str :=
  if u.RawPath ≠ [] ∧ validEncoded encodePath u.RawPath = true ∧
      unescape u.RawPath encodePath = some u.Path then u.RawPath
  else if u.Path = ['*'] then ['*']
  else escape encodePath u.Path

/-- Go `(*URL).EscapedFragment`. -/
def EscapedFragment (u : URL) : Str :=
  if u.RawFragment ≠ [] ∧ validEncoded encodeFragment u.RawFragment = true ∧
      unescape u.RawFragment encodeFragment = some u.Fragment then u.RawFragment
  else escape encodeFragment u.Fragment

/-- Go `(*Userinfo).String`. -/
def Userinfo.String (u : Userinfo) : Str :=
  escape encodeUserPassword u.username ++
    (if u.passwordSet then ':' :: escape encodeUserPassword u.password else [])

/-- The block of Go `(*URL).String` that appends `//`, the user information
and the host to the buffer `buf`. -/
def URL.writeAuthority (u : URL) (buf : Str) : Str :=
  if u.Scheme ≠ [] ∨ u.Host ≠ [] ∨ u.User.isSome then
    if u.OmitHost = true ∧ u.Host = [] ∧ u.User.isNone then buf
    else
      buf ++ (if u.Host ≠ [] ∨ u.Path ≠ [] ∨ u.User.isSome then ['/', '/'] else [])
        ++ (match u.User with
            | some ui => ui.String ++ ['@']
            | none => [])
        ++ (if u.Host ≠ [] then escape encodeHost u.Host else [])
  else buf

/-- The block of Go `(*URL).String` that appends the escaped path to the
buffer `buf`, preceded by `/` or `./` where Go inserts them. -/
def URL.writePath (u : URL) (buf : Str) : Str :=
  let path := EscapedPath u
  let buf2 : Str :=
    if path ≠ [] ∧ path.head? ≠ some '/' ∧ u.Host ≠ [] then buf ++ ['/'] else buf
  let buf3 : Str :=
    if buf2 = [] ∧ ':' ∈ (Cut '/' path).1 then buf2 ++ ['.', '/'] else buf2
  buf3 ++ path

/-- The part of Go `(*URL).String` written before the query: scheme, then
the opaque text or the authority and the path. -/
def URL.stringHead (u : URL) : Str :=
  let buf0 : Str := if u.Scheme ≠ [] then u.Scheme ++ [':'] else []
  if u.Opaque ≠ [] then buf0 ++ u.Opaque
  else u.writePath (u.writeAuthority buf0)

/-- Go `(*URL).String`. -/
def URL.String (u : URL) : Str :=
  u.stringHead
    ++ (if u.ForceQuery = true ∨ u.RawQuery ≠ [] then '?' :: u.RawQuery else [])
    ++ (if u.Fragment ≠ [] then '#' :: EscapedFragment u else [])

/-- Go `splitHostPort`, first result. -/
def splitHost (hostPort : Str) : Str :=
  let host :=
    match LastIndexByte ':' hostPort with
    | some colon =>
      if validOptionalPort (hostPort.drop colon) then hostPort.take colon else hostPort
    | none => hostPort
  if ['['].isPrefixOf host ∧ [']'].isSuffixOf host then (host.drop 1).dropLast else host

/-- Go `(*URL).Hostname`. -/
def URL.Hostname (u : URL) : Str :=
  splitHost u.Host

/-! ## Package `net/netip` -/

/-- Go `netip.Addr`, by its bytes: an IPv4 address has four, an IPv6 address
sixteen and a zone.  (The zero `Addr` is never produced by `ParseAddr`.) -/
inductive Addr where
  | v4 (b : List Nat)
  | v6 (b : List Nat) (zone : Str)
  deriving DecidableEq, Repr

/-- Loop of Go `parseIPv4Fields` over `in[off:end]`.  `fields` holds the
octets stored so far (`pos` of them), `prev` is the byte before the current
one (`none` at index 0). -/
def parseIPv4FieldsLoop :
    (val pos digLen : Nat) → (fields : List Nat) → (prev : Option Char) → Str →
      Option (List Nat)
  | val, pos, _, fields, _, [] => if pos < 3 then none else some (fields ++ [val])
  | val, pos, digLen, fields, prev, c :: rest =>
    if '0' ≤ c ∧ c ≤ '9' then
      if digLen = 1 ∧ val = 0 then none
      else if val * 10 + (c.toNat - 48) > 255 then none
      else parseIPv4FieldsLoop (val * 10 + (c.toNat - 48)) pos (digLen + 1) fields (some c) rest
    else if c = '.' then
      if prev = none ∨ rest = [] ∨ prev = some '.' then none
      else if pos = 3 then none
      else parseIPv4FieldsLoop 0 (pos + 1) 0 (fields ++ [val]) (some c) rest
    else none

/-- Go `parseIPv4Fields`: the four octets of a dotted-decimal text. -/
def parseIPv4Fields (s : Str) : Option (List Nat) :=
  parseIPv4FieldsLoop 0 0 0 [] none s

/-- Go `parseIPv4`. -/
def parseIPv4 (s : Str) : Option Addr :=
  (parseIPv4Fields s).map Addr.v4

/-- Inner loop of Go `parseIPv6`: reads one group of hex digits.  Returns the
number of digits `off`, their value `acc` and the text from `s[off:]`. -/
def parseHexGroup : (off acc : Nat) → Str → Option (Nat × Nat × Str)
  | off, acc, [] => some (off, acc, [])
  | off, acc, c :: rest =>
    if ishex c then
      if off > 3 then none
      else if acc * 16 + unhex c > 65535 then none
      else parseHexGroup (off + 1) (acc * 16 + unhex c) rest
    else some (off, acc, c :: rest)

/-- Outer loop `for i < 16` of Go `parseIPv6`.  `ip` holds the `i` bytes
written so far.  Every pass adds two bytes or leaves the loop, so eight passes
are the most the Go loop makes; `fuel` starts at eight and the test `16 ≤ i`
is the loop condition.  Result: `(i, ellipsis, ip, s)` at loop exit. -/
def parseIPv6Loop :
    (fuel i : Nat) → (ellipsis : Option Nat) → (ip : List Nat) → Str →
      Option (Nat × Option Nat × List Nat × Str)
  | 0, i, ellipsis, ip, s => some (i, ellipsis, ip, s)
  | fuel + 1, i, ellipsis, ip, s =>
    if 16 ≤ i then some (i, ellipsis, ip, s)
    else
      match parseHexGroup 0 0 s with
      | none => none
      | some (off, acc, s1) =>
        if off = 0 then none
        else if s1.head? = some '.' then
          if ellipsis = none ∧ i ≠ 12 then none
          else if i + 4 > 16 then none
          else
            match parseIPv4Fields s with
            | none => none
            | some f => some (i + 4, ellipsis, ip ++ f, [])
        else
          match s1 with
          | [] => some (i + 2, ellipsis, ip ++ [acc / 256, acc % 256], [])
          | c :: s2 =>
            if c ≠ ':' then none
            else
              match s2 with
              | [] => none
              | d :: s3 =>
                if d = ':' then
                  if ellipsis.isSome then none
                  else if s3 = [] then
                    some (i + 2, some (i + 2), ip ++ [acc / 256, acc % 256], [])
                  else
                    parseIPv6Loop fuel (i + 2) (some (i + 2))
                      (ip ++ [acc / 256, acc % 256]) s3
                else
                  parseIPv6Loop fuel (i + 2) ellipsis (ip ++ [acc / 256, acc % 256]) (d :: s3)

/-- Go `parseIPv6`. -/
def parseIPv6 (input : Str) : Option Addr :=
  let hasZone := (Cut '%' input).2.2
  let s0 := (Cut '%' input).1
  let zone := (Cut '%' input).2.1
  if hasZone = true ∧ zone = [] then none
  else
    let lead : Bool := ([':', ':'] : Str).isPrefixOf s0
    let s := if lead then s0.drop 2 else s0
    if lead = true ∧ s = [] then some (Addr.v6 (List.replicate 16 0) zone)
    else
      match parseIPv6Loop 8 0 (if lead then some 0 else none) [] s with
      | none => none
      | some (i, ellipsis, ip, rest) =>
        if rest ≠ [] then none
        else if i < 16 then
          match ellipsis with
          | none => none
          | some e => some (Addr.v6 (ip.take e ++ List.replicate (16 - i) 0 ++ ip.drop e) zone)
        else if ellipsis.isSome then none
        else some (Addr.v6 ip zone)

/-- Loop of Go `netip.ParseAddr`: dispatch on the first `.`, `:` or `%`. -/
def ParseAddrLoop (s : Str) : Str → Option Addr
  | [] => none
  | c :: rest =>
    if c = '.' then parseIPv4 s
    else if c = ':' then parseIPv6 s
    else if c = '%' then none
    else ParseAddrLoop s rest

/-- Go `netip.ParseAddr(s)`; `none` is the error return. -/
def ParseAddr (s : Str) : Option Addr :=
  ParseAddrLoop s s

/-- Go `Addr.Is4In6`. -/
def Addr.Is4In6 : Addr → Bool
  | Addr.v4 _ => false
  | Addr.v6 b _ => decide (b.take 12 = [0, 0, 0, 0, 0, 0, 0, 0, 0, 0, 255, 255])

/-- Go `Addr.Unmap`. -/
def Addr.Unmap : Addr → Addr
  | Addr.v4 b => Addr.v4 b
  | Addr.v6 b zone =>
    if (Addr.v6 b zone).Is4In6 then Addr.v4 (b.drop 12) else Addr.v6 b zone

/-- Go `Addr.IsLinkLocalUnicast`: 169.254.0.0/16 or fe80::/10, an
IPv4-mapped IPv6 address being unmapped first. -/
def Addr.IsLinkLocalUnicast (ip : Addr) : Bool :=
  match (if ip.Is4In6 then ip.Unmap else ip) with
  | Addr.v4 b => decide (b.getD 0 0 = 169 ∧ b.getD 1 0 = 254)
  | Addr.v6 b _ => decide (Nat.land (b.getD 0 0 * 256 + b.getD 1 0) 0xffc0 = 0xfe80)

/-! ## Package `main`: data -/

/-- How a piece of Go code ends: it returns a value, it calls
`logger.Fatal` / `logger.Fatalf` (log, then `os.Exit(1)`), or it panics. -/
inductive Outcome (α : Type) where
  | ok (a : α)
  | fatal
  | panic
  deriving DecidableEq, Repr

/-- The fields of `admin.PeerEntry` that `main.go` reads. -/
structure PeerEntry where
  URI : Str
  PublicKey : Str
  Up : Bool
  deriving DecidableEq, Repr

/-- Go `admin.AdminSocketRequest`.  `Arguments` is a `json.RawMessage`: `none`
is the nil message, `some m` the marshalled `map[string]string` `m`
(`json.Marshal` of such a map never fails). -/
structure AdminSocketRequest where
  Name : Str
  Arguments : Option (List (Str × Str)) := none
  KeepAlive : Bool := false
  deriving DecidableEq, Repr

/-- Go `admin.AdminSocketResponse`.  `Response` is a `json.RawMessage`; it is
held as what `json.Unmarshal` makes of it as an `admin.GetPeersResponse`:
`none` when unmarshalling fails, `some peers` otherwise. -/
structure AdminSocketResponse where
  Status : Str
  Error : Str := []
  Response : Option (List PeerEntry) := none
  deriving DecidableEq, Repr

/-- What the stream does on one exchange: `encoder.Encode` fails,
`decoder.Decode` fails, or a response is decoded. -/
inductive Reply where
  | encodeError
  | decodeError
  | response (recv : AdminSocketResponse)
  deriving DecidableEq, Repr

/-- The connection `*s.conn`: the replies the control surface will give, in
order (an exhausted script is a stream closed by the other side: `Decode`
fails with `io.EOF`), and the requests handed to `encoder.Encode` so far. -/
structure Conn where
  incoming : List Reply
  written : List AdminSocketRequest := []
  deriving DecidableEq, Repr

/-- Go `Server` (the logger is not modelled).  `peers` is a pointer: `none` is
nil, its value before the first `GetPeers`. -/
structure Server where
  conn : Conn
  peers : Option (List PeerEntry) := none
  deriving DecidableEq, Repr

/-- The texts of `core.ErrLinkNotConfigured.Error()` and
`core.ErrLinkAlreadyConfigured.Error()`.  They are defined in package `core`
of yggdrasil-go, outside this repository, and are taken as parameters. -/
structure CoreErrors where
  ErrLinkNotConfigured : Str
  ErrLinkAlreadyConfigured : Str
  deriving DecidableEq, Repr

/-- Modelled from the spec: the texts of the two tolerated errors, which the
specification words `link not configured` and `link already configured`; the
Go constants `core.ErrLinkNotConfigured` and `core.ErrLinkAlreadyConfigured`
are declared in yggdrasil-go, outside this repository. -/
def specCoreErrors : CoreErrors :=
  { ErrLinkNotConfigured := "link not configured".toList
    ErrLinkAlreadyConfigured := "link already configured".toList }

/-! ## Package `main`: functions -/

/-- Go `(*Server).query`.  The request, with `KeepAlive` set, is handed to the
encoder; then the reply is read and classified. -/
def query (core : CoreErrors) (s : Server) (send : AdminSocketRequest) :
    Server × Outcome AdminSocketResponse :=
  let s1 : Server :=
    { s with conn :=
        { incoming := s.conn.incoming.tail
          written := s.conn.written ++ [{ send with KeepAlive := true }] } }
  match s.conn.incoming with
  | [] => (s1, Outcome.fatal)
  | Reply.encodeError :: _ => (s1, Outcome.fatal)
  | Reply.decodeError :: _ => (s1, Outcome.fatal)
  | Reply.response recv :: _ =>
    if recv.Status = "error".toList then
      if recv.Error ≠ [] then
        if recv.Error ≠ core.ErrLinkNotConfigured ∧
            recv.Error ≠ core.ErrLinkAlreadyConfigured then (s1, Outcome.fatal)
        else (s1, Outcome.ok recv)
      else (s1, Outcome.fatal)
    else (s1, Outcome.ok recv)

/-- Go `(*Server).GetPeers`. -/
def GetPeers (core : CoreErrors) (s : Server) : Server × Outcome Unit :=
  match query core s { Name := "getpeers".toList } with
  | (s1, Outcome.ok recv) =>
    match recv.Response with
    | none => (s1, Outcome.fatal)
    | some peers => ({ s1 with peers := some peers }, Outcome.ok ())
  | (s1, Outcome.fatal) => (s1, Outcome.fatal)
  | (s1, Outcome.panic) => (s1, Outcome.panic)

/-- Go `stripQuery`; `none` is the return `("", err)`. -/
def stripQuery (thatUrl : Str) : Option Str :=
  match Parse thatUrl with
  | none => none
  | some parsedURL => some ({ parsedURL with RawQuery := [] }).String

/-- Go `(*Server).SetPeer`.  In the removal branch `uri, _ = stripQuery(uri)`
leaves the empty string in `uri` when parsing fails, and `*s.peers` panics on
a nil pointer. -/
def SetPeer (core : CoreErrors) (s : Server) (uri : Str) (state : Bool) :
    Server × Outcome Unit :=
  if state then
    match query core s { Name := "addpeer".toList, Arguments := some [("uri".toList, uri)] } with
    | (s1, Outcome.ok _) => (s1, Outcome.ok ())
    | (s1, Outcome.fatal) => (s1, Outcome.fatal)
    | (s1, Outcome.panic) => (s1, Outcome.panic)
  else
    let uri2 := (stripQuery uri).getD []
    match s.peers with
    | none => (s, Outcome.panic)
    | some peers =>
      if peers.any (fun peer => decide (uri2 = peer.URI)) then (s, Outcome.ok ())
      else
        match query core s
          { Name := "removepeer".toList, Arguments := some [("uri".toList, uri2)] } with
        | (s1, Outcome.ok _) => (s1, Outcome.ok ())
        | (s1, Outcome.fatal) => (s1, Outcome.fatal)
        | (s1, Outcome.panic) => (s1, Outcome.panic)

/-- The `for _, peer := range *s.peers` loop of `hasLocalPeers`. -/
def hasLocalPeersLoop (keys : List Str) : List PeerEntry → Outcome Bool
  | [] => Outcome.ok false
  | peer :: rest =>
    if !peer.Up then hasLocalPeersLoop keys rest
    else
      match Parse peer.URI with
      | none => Outcome.fatal
      | some url =>
        match ParseAddr url.Hostname with
        | none => hasLocalPeersLoop keys rest
        | some ip =>
          if ip.IsLinkLocalUnicast && keys.contains peer.PublicKey then Outcome.ok true
          else hasLocalPeersLoop keys rest

/-- Go `(*Server).hasLocalPeers`. -/
def hasLocalPeers (s : Server) (keys : List Str) : Outcome Bool :=
  match s.peers with
  | none => Outcome.panic
  | some peers => hasLocalPeersLoop keys peers

/-- Go `NewServer`.  `dial network address` is `net.Dial`: a connection or an
error text.  When `url.Parse` fails `u` is nil, and the argument `u.Host` of
the log call dereferences it before `net.Dial` is reached.  `(endpoint)[7:]`
panics when the endpoint has fewer than seven bytes. -/
def NewServer (dial : Str → Str → Except Str Conn) (endpoint : Str) :
    Outcome (Except Str Server) :=
  match Parse endpoint with
  | some u =>
    if ToLower u.Scheme = "unix".toList then
      if endpoint.length < 7 then Outcome.panic
      else
        match dial "unix".toList (endpoint.drop 7) with
        | Except.error err => Outcome.ok (Except.error err)
        | Except.ok conn => Outcome.ok (Except.ok { conn := conn })
    else if ToLower u.Scheme = "tcp".toList then
      match dial "tcp".toList u.Host with
      | Except.error err => Outcome.ok (Except.error err)
      | Except.ok conn => Outcome.ok (Except.ok { conn := conn })
    else Outcome.ok (Except.error "protocol not supported".toList)
  | none => Outcome.panic

/-- The loop `for _, peerUri := range *soloPeers` of `run`. -/
def setPeers (core : CoreErrors) (hasTrustedRouters : Bool) :
    List Str → Server → Server × Outcome Unit
  | [], s => (s, Outcome.ok ())
  | peerUri :: rest, s =>
    match SetPeer core s peerUri (!hasTrustedRouters) with
    | (s1, Outcome.ok _) => setPeers core hasTrustedRouters rest s1
    | (s1, Outcome.fatal) => (s1, Outcome.fatal)
    | (s1, Outcome.panic) => (s1, Outcome.panic)

/-- One pass of the body of the `for` loop of `run`, up to `time.Sleep`. -/
def cycle (core : CoreErrors) (routers soloPeers : List Str) (s : Server) :
    Server × Outcome Unit :=
  match GetPeers core s with
  | (s1, Outcome.ok _) =>
    match hasLocalPeers s1 routers with
    | Outcome.ok hasTrustedRouters => setPeers core hasTrustedRouters soloPeers s1
    | Outcome.fatal => (s1, Outcome.fatal)
    | Outcome.panic => (s1, Outcome.panic)
  | (s1, Outcome.fatal) => (s1, Outcome.fatal)
  | (s1, Outcome.panic) => (s1, Outcome.panic)

/-- The `for` loop of `run`, cut after `n` passes: the Go loop has no exit, so
`ok` means that it is still running after `n` passes. -/
def runLoop (core : CoreErrors) (routers soloPeers : List Str) :
    Nat → Server → Server × Outcome Unit
  | 0, s => (s, Outcome.ok ())
  | n + 1, s =>
    match cycle core routers soloPeers s with
    | (s1, Outcome.ok _) => runLoop core routers soloPeers n s1
    | (s1, Outcome.fatal) => (s1, Outcome.fatal)
    | (s1, Outcome.panic) => (s1, Outcome.panic)

/-- What `run` reads from outside: whether `zfg.Parse` returned an error, the
values of the flags after parsing, and `net.Dial`. -/
structure Env where
  parseFails : Bool
  endpoint : Str
  routers : List Str
  soloPeers : List Str
  dial : Str → Str → Except Str Conn

/-- The body of `run` with the loop cut after `n` passes. -/
def runBody (core : CoreErrors) (env : Env) (n : Nat) : Outcome Unit :=
  if env.parseFails then Outcome.panic
  else if env.routers.any (fun key => decide (key.length ≠ 64)) then Outcome.fatal
  else if env.soloPeers.any (fun uri => (Parse uri).isNone) then Outcome.fatal
  else
    match NewServer env.dial env.endpoint with
    | Outcome.ok (Except.ok server) => (runLoop core env.routers env.soloPeers n server).2
    | Outcome.ok (Except.error _) => Outcome.panic
    | Outcome.fatal => Outcome.fatal
    | Outcome.panic => Outcome.panic

/-- The closure deferred by `run`: the value it returns, given whether
`recover()` returned a non-nil value. -/
def runDeferred (recovered : Bool) : Int :=
  if recovered then 1 else 0

/-- How the call `run()` made by `main` ends. -/
inductive RunResult where
  | returned (code : Int)
  | exited (status : Int)
  | looping
  deriving DecidableEq, Repr

/-- Go `run`.  `logger.Fatal` ends the process with status 1 inside `run`.  A
panic runs the deferred closure, which recovers; Go discards the value a
deferred call returns, and `run`, whose result is unnamed, then returns the
zero value of `int`. -/
def run (core : CoreErrors) (env : Env) (n : Nat) : RunResult :=
  match runBody core env n with
  | Outcome.ok _ => RunResult.looping
  | Outcome.fatal => RunResult.exited 1
  | Outcome.panic => (runDeferred true, RunResult.returned 0).2

/-- Go `main`: `os.Exit(run())`.  The exit status of the process, `none` while
the loop is still running. -/
def main (core : CoreErrors) (env : Env) (n : Nat) : Option Int :=
  match run core env n with
  | RunResult.returned code => some code
  | RunResult.exited status => some status
  | RunResult.looping => none

/-! ## Vocabulary of the specification -/

/-- The responses the specification calls fatal: status `error` with an empty
message, or with a message that is neither of the two tolerated ones. -/
def fatalResponse (core : CoreErrors) (recv : AdminSocketResponse) : Prop :=
  recv.Status = "error".toList ∧
    (recv.Error = [] ∨
      (recv.Error ≠ core.ErrLinkNotConfigured ∧ recv.Error ≠ core.ErrLinkAlreadyConfigured))

instance (core : CoreErrors) (recv : AdminSocketResponse) :
    Decidable (fatalResponse core recv) := by
  unfold fatalResponse
  infer_instance

/-- The specification's trusted local router: an entry that is up, whose URI
host is a link-local unicast IP literal and whose public key is trusted. -/
def trustedLocalPeer (keys : List Str) (peer : PeerEntry) : Bool :=
  peer.Up && keys.contains peer.PublicKey &&
    match Parse peer.URI with
    | none => false
    | some url =>
      match ParseAddr url.Hostname with
      | none => false
      | some ip => ip.IsLinkLocalUnicast

/-- An entry whose URI has a host that is not an IP literal: the URI parses
and `netip.ParseAddr` rejects its host name. -/
def hostNotIP (peer : PeerEntry) : Bool :=
  match Parse peer.URI with
  | none => false
  | some url => (ParseAddr url.Hostname).isNone

/-- Bytes that `getScheme` admits in a scheme. -/
def schemeByte (c : Char) : Prop :=
  ('a' ≤ c ∧ c ≤ 'z') ∨ ('A' ≤ c ∧ c ≤ 'Z') ∨ ('0' ≤ c ∧ c ≤ '9') ∨ c = '+' ∨ c = '-' ∨ c = '.'

/-- A text without the query marker `?` and without the fragment marker `#`. -/
def noMark (s : Str) : Prop := ∀ c : Char, (c = '?' ∨ c = '#') → c ∉ s

/-! ## Concrete data of the specification's scenarios -/

/-- A trusted public key `K` of 64 characters. -/
def keyK : Str := List.replicate 64 'k'

/-- The link-local trusted router of the scenarios. -/
def localRouter : PeerEntry :=
  { URI := "tcp://[fe80::1]:1".toList, PublicKey := keyK, Up := true }

/-- An entry that is up and whose URI `url.Parse` rejects ("missing protocol
scheme"). -/
def bogusPeer : PeerEntry :=
  { URI := ":".toList, PublicKey := keyK, Up := true }

/-- The fallback peer of the scenarios as a snapshot entry. -/
def fallbackEntry : PeerEntry :=
  { URI := "tcp://2.2.2.2:1".toList, PublicKey := keyK, Up := true }

/-- A response with status `error` and the given message. -/
def errorResponse (msg : Str) : AdminSocketResponse :=
  { Status := "error".toList, Error := msg }

/-! ## Helper lemmas -/

/-- On a decoded response `query` logs the request with `KeepAlive` set and
ends the process exactly on a fatal response. -/
theorem query_response (core : CoreErrors) (s : Server) (send : AdminSocketRequest)
    (recv : AdminSocketResponse) (rest : List Reply)
    (h : s.conn.incoming = Reply.response recv :: rest) :
    query core s send =
      ({ s with conn :=
          { incoming := rest
            written := s.conn.written ++ [{ send with KeepAlive := true }] } },
        if fatalResponse core recv then Outcome.fatal else Outcome.ok recv) := by
  unfold query fatalResponse
  rw [h]
  dsimp only
  split_ifs <;> simp_all

/-- With verdict false and non-fatal answers, the loop over the fallback peers
writes one `addpeer` per peer, in order. -/
theorem setPeers_add (core : CoreErrors) :
    ∀ (soloPeers : List Str) (s : Server) (answers : List AdminSocketResponse)
      (tail : List Reply),
      s.conn.incoming = answers.map Reply.response ++ tail →
      answers.length = soloPeers.length →
      (∀ r ∈ answers, ¬ fatalResponse core r) →
      setPeers core false soloPeers s =
        ({ s with conn :=
            { incoming := tail
              written := s.conn.written ++ soloPeers.map fun uri =>
                { Name := "addpeer".toList, Arguments := some [("uri".toList, uri)],
                  KeepAlive := true } } },
          Outcome.ok ()) := by
  intro soloPeers
  induction soloPeers with
  | nil =>
    intro s answers tail hin hlen _
    have : answers = [] := List.length_eq_zero.mp hlen
    subst this
    simp only [List.map_nil, List.nil_append] at hin
    simp [setPeers, ← hin]
  | cons uri rest ih =>
    intro s answers tail hin hlen hok
    cases answers with
    | nil => simp at hlen
    | cons a as =>
      have ha : ¬ fatalResponse core a := hok a (List.mem_cons_self _ _)
      have hq := query_response core s
        { Name := "addpeer".toList, Arguments := some [("uri".toList, uri)] } a
        (as.map Reply.response ++ tail) (by simpa using hin)
      simp only [ha, if_false] at hq
      simp only [setPeers, SetPeer, Bool.not_false, if_true, hq]
      rw [ih _ as tail rfl (by simpa using hlen)
        (fun r hr => hok r (List.mem_cons_of_mem _ hr))]
      simp

/-- Entries whose up members all parse either yield true themselves or leave
the verdict to the entries after them. -/
theorem hasLocalPeersLoop_append_of_parse (keys : List Str) (post : List PeerEntry) :
    ∀ (pre : List PeerEntry),
      (∀ p ∈ pre, p.Up = true → Parse p.URI ≠ none) →
      hasLocalPeersLoop keys (pre ++ post) = Outcome.ok true ∨
        hasLocalPeersLoop keys (pre ++ post) = hasLocalPeersLoop keys post := by
  intro pre
  induction pre with
  | nil => intro _; right; rfl
  | cons p pre ih =>
    intro h
    have ih2 := ih (fun q hq => h q (List.mem_cons_of_mem _ hq))
    simp only [List.cons_append, hasLocalPeersLoop]
    by_cases hup : p.Up = true
    · have hp := h p (List.mem_cons_self _ _) hup
      cases hparse : Parse p.URI with
      | none => exact absurd hparse hp
      | some url =>
        cases haddr : ParseAddr url.Hostname with
        | none => simpa [hup, hparse, haddr] using ih2
        | some ip =>
          by_cases hl : (ip.IsLinkLocalUnicast && keys.contains p.PublicKey) = true
          · left
            simp only [Bool.and_eq_true] at hl
            simp [hup, hparse, haddr, hl.1, List.mem_of_elem_eq_true hl.2]
          · have hl2 : ¬ (ip.IsLinkLocalUnicast = true ∧ p.PublicKey ∈ keys) := by
              simpa using hl
            simpa [hup, hparse, haddr, hl2] using ih2
    · simpa [hup] using ih2

/-- A trusted local router at the head of the snapshot yields true. -/
theorem hasLocalPeersLoop_head_trusted (keys : List Str) (e : PeerEntry)
    (post : List PeerEntry) (he : trustedLocalPeer keys e = true) :
    hasLocalPeersLoop keys (e :: post) = Outcome.ok true := by
  unfold trustedLocalPeer at he
  unfold hasLocalPeersLoop
  cases hparse : Parse e.URI with
  | none => simp [hparse] at he
  | some url =>
    cases haddr : ParseAddr url.Hostname with
    | none => simp [hparse, haddr] at he
    | some ip =>
      simp only [hparse, haddr, Bool.and_eq_true] at he
      simp [hparse, haddr, he.1.1, List.mem_of_elem_eq_true he.1.2, he.2]

/-- Without a trusted local router and without malformed up entries the loop
returns false. -/
theorem hasLocalPeersLoop_false (keys : List Str) :
    ∀ (peers : List PeerEntry),
      (∀ p ∈ peers, trustedLocalPeer keys p = false) →
      (∀ p ∈ peers, p.Up = true → Parse p.URI ≠ none) →
      hasLocalPeersLoop keys peers = Outcome.ok false := by
  intro peers
  induction peers with
  | nil => intro _ _; rfl
  | cons p rest ih =>
    intro hno hparse
    have ih2 := ih (fun q hq => hno q (List.mem_cons_of_mem _ hq))
      (fun q hq => hparse q (List.mem_cons_of_mem _ hq))
    have hp := hno p (List.mem_cons_self _ _)
    unfold trustedLocalPeer at hp
    unfold hasLocalPeersLoop
    by_cases hup : p.Up = true
    · have hpp := hparse p (List.mem_cons_self _ _) hup
      cases hparse2 : Parse p.URI with
      | none => exact absurd hparse2 hpp
      | some url =>
        cases haddr : ParseAddr url.Hostname with
        | none => simpa [hup, hparse2, haddr] using ih2
        | some ip =>
          simp only [hup, hparse2, haddr, Bool.true_and] at hp
          have hl2 : ¬ (ip.IsLinkLocalUnicast = true ∧ p.PublicKey ∈ keys) := by
            intro hc
            simp [hc.1, hc.2] at hp
          simpa [hup, hparse2, haddr, hl2] using ih2
    · simpa [hup] using ih2

/-- Deleting the down entries does not change the result of the loop. -/
theorem hasLocalPeersLoop_filter_up (keys : List Str) :
    ∀ (peers : List PeerEntry),
      hasLocalPeersLoop keys peers =
        hasLocalPeersLoop keys (peers.filter fun peer => peer.Up) := by
  intro peers
  induction peers with
  | nil => rfl
  | cons p rest ih =>
    by_cases hup : p.Up = true
    · rw [List.filter_cons_of_pos hup]
      unfold hasLocalPeersLoop
      rw [ih]
    · rw [List.filter_cons_of_neg hup]
      rw [← ih]
      conv_lhs => unfold hasLocalPeersLoop
      simp [hup]

/-- Deleting the entries with a non-IP host does not change the result of the
loop. -/
theorem hasLocalPeersLoop_filter_ip (keys : List Str) :
    ∀ (peers : List PeerEntry),
      hasLocalPeersLoop keys peers =
        hasLocalPeersLoop keys (peers.filter fun peer => !hostNotIP peer) := by
  intro peers
  induction peers with
  | nil => rfl
  | cons p rest ih =>
    by_cases hip : hostNotIP p = true
    · rw [List.filter_cons_of_neg (by simp [hip])]
      rw [← ih]
      conv_lhs => unfold hasLocalPeersLoop
      unfold hostNotIP at hip
      cases hparse : Parse p.URI with
      | none => simp [hparse] at hip
      | some url =>
        cases haddr : ParseAddr url.Hostname with
        | none => simp [hparse, haddr]
        | some ip => simp [hparse, haddr] at hip
    · rw [List.filter_cons_of_pos (by simpa using hip)]
      unfold hasLocalPeersLoop
      rw [ih]

/-- Whatever the reply, `query` logs exactly the request it was given. -/
theorem query_written (core : CoreErrors) (s : Server) (send : AdminSocketRequest) :
    (query core s send).1.conn.written = s.conn.written ++ [{ send with KeepAlive := true }] := by
  unfold query
  cases s.conn.incoming with
  | nil => rfl
  | cons r rest =>
    cases r with
    | encodeError => rfl
    | decodeError => rfl
    | response recv =>
      dsimp only
      split_ifs <;> rfl

/-- Removal path of `SetPeer`: when no snapshot entry carries the stripped URI,
a `removepeer` request for it is written. -/
theorem SetPeer_removal_written_of_absent (core : CoreErrors) (s : Server) (uri : Str)
    (peers : List PeerEntry) (hs : s.peers = some peers)
    (habs : peers.any (fun peer => decide ((stripQuery uri).getD [] = peer.URI)) = false) :
    (SetPeer core s uri false).1.conn.written =
      s.conn.written ++
        [{ Name := "removepeer".toList,
           Arguments := some [("uri".toList, (stripQuery uri).getD [])], KeepAlive := true }] := by
  have hq := query_written core s
    { Name := "removepeer".toList, Arguments := some [("uri".toList, (stripQuery uri).getD [])] }
  simp only [SetPeer, hs, habs, Bool.false_eq_true, if_false]
  generalize query core s
    { Name := "removepeer".toList,
      Arguments := some [("uri".toList, (stripQuery uri).getD [])] } = q at hq
  obtain ⟨s1, o⟩ := q
  cases o <;> exact hq

theorem upperhex_ne_mark (n : Nat) (c : Char) (hc : c = '?' ∨ c = '#') : upperhex n ≠ c := by
  have h : ∀ k, k < 16 → upperhex k ≠ '?' ∧ upperhex k ≠ '#' := by decide
  have hn : upperhex n = upperhex (n % 16) := by simp [upperhex]
  rw [hn]
  rcases hc with rfl | rfl
  · exact (h _ (Nat.mod_lt _ (by norm_num))).1
  · exact (h _ (Nat.mod_lt _ (by norm_num))).2

theorem shouldEscape_mark (mode : encoding) (c : Char)
    (hm : mode = encodeHost ∨ mode = encodePath ∨ mode = encodeUserPassword)
    (hc : c = '?' ∨ c = '#') : shouldEscape c mode = true := by
  rcases hm with rfl | rfl | rfl <;> rcases hc with rfl | rfl <;> decide

/-- In host, path and user-information mode `escape` emits neither `?` nor
`#`. -/
theorem escape_no_mark (mode : encoding) (c : Char)
    (hm : mode = encodeHost ∨ mode = encodePath ∨ mode = encodeUserPassword)
    (hc : c = '?' ∨ c = '#') : ∀ s : Str, c ∉ escape mode s := by
  have hq : mode ≠ encodeQueryComponent := by
    rcases hm with rfl | rfl | rfl <;> decide
  have hpc : c ≠ '%' := by rcases hc with rfl | rfl <;> decide
  intro s
  induction s with
  | nil => simp [escape]
  | cons x rest ih =>
    unfold escape
    split_ifs with h1 h2
    · exact absurd h1.2 hq
    · simp only [List.mem_cons, not_or]
      exact ⟨hpc, fun h => upperhex_ne_mark _ c hc h.symm,
        fun h => upperhex_ne_mark _ c hc h.symm, ih⟩
    · simp only [List.mem_cons, not_or]
      refine ⟨fun h => ?_, ih⟩
      rw [← h] at h2
      exact h2 (shouldEscape_mark mode c hm hc)

/-- A raw path accepted by `validEncoded` holds neither `?` nor `#`. -/
theorem validEncoded_no_mark (c : Char) (hc : c = '?' ∨ c = '#') :
    ∀ s : Str, validEncoded encodePath s = true → c ∉ s := by
  have h1 : c ∉ ['!', '$', '&', quoteChar, '(', ')', '*', '+', ',', ';', '=', ':', '@'] := by
    rcases hc with rfl | rfl <;> decide
  have h2 : ¬ (c = '[' ∨ c = ']') := by rcases hc with rfl | rfl <;> decide
  have h3 : c ≠ '%' := by rcases hc with rfl | rfl <;> decide
  have h4 : shouldEscape c encodePath = true := shouldEscape_mark _ c (Or.inr (Or.inl rfl)) hc
  intro s
  induction s with
  | nil => intro _; simp
  | cons x rest ih =>
    intro h
    unfold validEncoded at h
    have hx : c ≠ x := by
      intro hxc
      subst hxc
      simp only [h1, h2, h3, h4, if_true, if_false] at h
      exact absurd h (by decide)
    have hr : validEncoded encodePath rest = true := by
      split_ifs at h <;> exact h
    simp only [List.mem_cons, not_or]
    exact ⟨hx, ih hr⟩

theorem Cut_fst_not_mem (sep : Char) : ∀ s : Str, sep ∉ (Cut sep s).1 := by
  intro s
  induction s with
  | nil => simp [Cut]
  | cons x rest ih =>
    unfold Cut
    split_ifs with h
    · simp
    · simp only [List.mem_cons, not_or]
      exact ⟨fun hh => h hh.symm, ih⟩

theorem Cut_fst_subset (sep : Char) : ∀ (s : Str) (c : Char), c ∈ (Cut sep s).1 → c ∈ s := by
  intro s
  induction s with
  | nil => intro c h; simp [Cut] at h
  | cons x rest ih =>
    intro c h
    unfold Cut at h
    split_ifs at h with hx
    · simp at h
    · simp only [List.mem_cons] at h ⊢
      rcases h with h | h
      · exact Or.inl h
      · exact Or.inr (ih c h)

/-- The scheme found by `getScheme` consists of scheme bytes, and the rest is
part of the input. -/
theorem getSchemeLoop_spec :
    ∀ (suffix pre scheme rest : Str),
      (∀ c ∈ pre, schemeByte c) →
      getSchemeLoop (pre ++ suffix) pre.length suffix = some (scheme, rest) →
      (∀ c ∈ scheme, schemeByte c) ∧ (∀ c ∈ rest, c ∈ pre ++ suffix) := by
  intro suffix
  induction suffix with
  | nil =>
    intro pre scheme rest _ h
    simp only [getSchemeLoop, Option.some.injEq, Prod.mk.injEq] at h
    obtain ⟨h1, h2⟩ := h
    subst h1 h2
    exact ⟨by simp, fun c hc => hc⟩
  | cons x xs ih =>
    intro pre scheme rest hpre h
    have happ : pre ++ x :: xs = (pre ++ [x]) ++ xs := by simp
    have hlen : pre.length + 1 = (pre ++ [x]).length := by simp
    unfold getSchemeLoop at h
    split_ifs at h with h1 h2 h3 h4 h5
    · rw [happ, hlen] at h
      have := ih (pre ++ [x]) scheme rest (by
        intro c hc
        simp only [List.mem_append, List.mem_singleton] at hc
        rcases hc with hc | hc
        · exact hpre c hc
        · subst hc
          rcases h1 with h1 | h1
          · exact Or.inl h1
          · exact Or.inr (Or.inl h1)) h
      rw [happ]
      exact this
    · simp only [Option.some.injEq, Prod.mk.injEq] at h
      obtain ⟨h1, h2⟩ := h
      subst h1 h2
      exact ⟨by simp, fun c hc => hc⟩
    · rw [happ, hlen] at h
      have := ih (pre ++ [x]) scheme rest (by
        intro c hc
        simp only [List.mem_append, List.mem_singleton] at hc
        rcases hc with hc | hc
        · exact hpre c hc
        · subst hc
          exact Or.inr (Or.inr h2)) h
      rw [happ]
      exact this
    · simp only [Option.some.injEq, Prod.mk.injEq] at h
      obtain ⟨h1, h2⟩ := h
      subst h1 h2
      refine ⟨?_, fun c hc => by simp [hc]⟩
      intro c hc
      rw [List.take_left] at hc
      exact hpre c hc
    · simp only [Option.some.injEq, Prod.mk.injEq] at h
      obtain ⟨h1, h2⟩ := h
      subst h1 h2
      exact ⟨by simp, fun c hc => hc⟩

theorem getScheme_spec (rawURL scheme rest : Str) (h : getScheme rawURL = some (scheme, rest)) :
    (∀ c ∈ scheme, schemeByte c) ∧ (∀ c ∈ rest, c ∈ rawURL) := by
  have := getSchemeLoop_spec rawURL [] scheme rest (by simp) (by simpa [getScheme] using h)
  simpa using this

theorem ToLower_no_mark (c : Char) (hc : c = '?' ∨ c = '#') (s : Str)
    (hs : ∀ x ∈ s, schemeByte x) : c ∉ ToLower s := by
  unfold ToLower
  simp only [List.mem_map, not_exists, not_and]
  intro x hx
  have hsx := hs x hx
  split_ifs with h
  · obtain ⟨h1, h2⟩ := h
    have h1' : 65 ≤ x.toNat := h1
    have h2' : x.toNat ≤ 90 := h2
    generalize x.toNat = n at h1' h2'
    rcases hc with rfl | rfl <;> interval_cases n <;> decide
  · intro hxc
    subst hxc
    unfold schemeByte at hsx
    rcases hc with rfl | rfl <;> revert hsx <;> decide


theorem setPath_fields (u p : URL) (r : Str) (h : setPath u r = some p) :
    p.Scheme = u.Scheme ∧ p.Opaque = u.Opaque := by
  unfold setPath at h
  cases hu : unescape r encodePath with
  | none => simp [hu] at h
  | some path =>
    simp only [hu] at h
    split_ifs at h <;> (simp only [Option.some.injEq] at h; subst h; exact ⟨rfl, rfl⟩)

theorem setFragment_fields (u p : URL) (f : Str) (h : setFragment u f = some p) :
    p.Scheme = u.Scheme ∧ p.Opaque = u.Opaque ∧ p.ForceQuery = u.ForceQuery := by
  unfold setFragment at h
  cases hu : unescape f encodeFragment with
  | none => simp [hu] at h
  | some frag =>
    simp only [hu] at h
    split_ifs at h <;> (simp only [Option.some.injEq] at h; subst h; exact ⟨rfl, rfl, rfl⟩)

theorem dropLast_no_sep (sep : Char) (l : Str) (h1 : [sep].isSuffixOf l = true)
    (h2 : l.count sep = 1) : sep ∉ l.dropLast := by
  have hs : [sep] <:+ l := by simpa using h1
  obtain ⟨t, ht⟩ := hs
  subst ht
  simp only [List.count_append, List.count_singleton_self] at h2
  have : List.count sep t = 0 := by omega
  simpa using List.count_eq_zero.mp this

/-- Scheme and opaque text produced by `parse` hold neither `?` nor `#`. -/
theorem parse_noMark (u : Str) (p : URL) (hu : '#' ∉ u) (h : parse u false = some p) :
    noMark p.Scheme ∧ noMark p.Opaque := by
  have hnil : noMark [] := fun c _ => by simp
  unfold parse at h
  split_ifs at h with h1 h2 h3
  · simp only [Option.some.injEq] at h
    subst h
    exact ⟨hnil, hnil⟩
  · cases hg : getScheme u with
    | none => simp [hg] at h
    | some sr =>
      obtain ⟨scheme0, rest0⟩ := sr
      obtain ⟨hsch, hrest0⟩ := getScheme_spec u scheme0 rest0 hg
      have hS : noMark (ToLower scheme0) := fun c hc => ToLower_no_mark c hc scheme0 hsch
      have hR : noMark (if (['?'].isSuffixOf rest0 && rest0.count '?' == 1) = true
          then rest0.dropLast else (Cut '?' rest0).1) := by
        intro c hc
        split_ifs with hf
        · simp only [Bool.and_eq_true, beq_iff_eq] at hf
          rcases hc with rfl | rfl
          · exact dropLast_no_sep '?' rest0 hf.1 hf.2
          · exact fun hm => hu (hrest0 _ (List.mem_of_mem_dropLast hm))
        · rcases hc with rfl | rfl
          · exact Cut_fst_not_mem '?' rest0
          · exact fun hm => hu (hrest0 _ (Cut_fst_subset '?' rest0 _ hm))
      simp only [hg] at h
      generalize (if (['?'].isSuffixOf rest0 && rest0.count '?' == 1) = true
          then rest0.dropLast else (Cut '?' rest0).1) = rest at h hR
      generalize (if (['?'].isSuffixOf rest0 && rest0.count '?' == 1) = true
          then [] else (Cut '?' rest0).2.1) = rawQuery at h
      split_ifs at h with h4 h5 h6 h7 h8
      · simp only [Option.some.injEq] at h
        subst h
        exact ⟨hS, hR⟩
      · split at h
        · exact absurd h (by simp)
        · obtain ⟨e1, e2⟩ := setPath_fields _ _ _ h
          rw [e1, e2]
          exact ⟨hS, hnil⟩
      · obtain ⟨e1, e2⟩ := setPath_fields _ _ _ h
        rw [e1, e2]
        exact ⟨hS, hnil⟩
      · obtain ⟨e1, e2⟩ := setPath_fields _ _ _ h
        rw [e1, e2]
        exact ⟨hS, hnil⟩

/-- Scheme and opaque text produced by `url.Parse` hold neither `?` nor `#`. -/
theorem Parse_noMark (thatUrl : Str) (p : URL) (h : Parse thatUrl = some p) :
    noMark p.Scheme ∧ noMark p.Opaque := by
  unfold Parse at h
  cases hp : parse (Cut '#' thatUrl).1 false with
  | none => simp [hp] at h
  | some url =>
    have hu := parse_noMark _ url (Cut_fst_not_mem '#' thatUrl) hp
    simp only [hp] at h
    split_ifs at h
    · simp only [Option.some.injEq] at h
      subst h
      exact hu
    · obtain ⟨e1, e2, _⟩ := setFragment_fields _ _ _ h
      rw [e1, e2]
      exact hu

theorem EscapedPath_noMark (u : URL) : noMark (EscapedPath u) := by
  intro c hc
  unfold EscapedPath
  split_ifs with h1 h2
  · exact validEncoded_no_mark c hc _ h1.2.1
  · rcases hc with rfl | rfl <;> decide
  · exact escape_no_mark encodePath c (Or.inr (Or.inl rfl)) hc _

theorem Userinfo_String_noMark (ui : Userinfo) : noMark ui.String := by
  intro c hc
  unfold Userinfo.String
  simp only [List.mem_append, not_or]
  refine ⟨escape_no_mark _ c (Or.inr (Or.inr rfl)) hc _, ?_⟩
  split_ifs
  · simp only [List.mem_cons, not_or]
    exact ⟨by rcases hc with rfl | rfl <;> decide,
      escape_no_mark _ c (Or.inr (Or.inr rfl)) hc _⟩
  · simp

theorem writeAuthority_no_mark (p : URL) (c : Char) (hc : c = '?' ∨ c = '#') (buf : Str)
    (hb : c ∉ buf) : c ∉ p.writeAuthority buf := by
  have c2 : c ≠ '/' := by rcases hc with rfl | rfl <;> decide
  have c4 : c ≠ '@' := by rcases hc with rfl | rfl <;> decide
  have hH := escape_no_mark encodeHost c (Or.inl rfl) hc p.Host
  unfold URL.writeAuthority
  cases hu : p.User with
  | none =>
    dsimp only
    split_ifs <;>
      (try simp only [List.mem_append, List.mem_cons, List.mem_singleton, List.not_mem_nil,
        or_false, not_or]) <;>
      tauto
  | some ui =>
    have hU := Userinfo_String_noMark ui c hc
    dsimp only
    split_ifs <;>
      (try simp only [List.mem_append, List.mem_cons, List.mem_singleton, List.not_mem_nil,
        or_false, not_or]) <;>
      tauto

theorem writePath_no_mark (p : URL) (c : Char) (hc : c = '?' ∨ c = '#') (buf : Str)
    (hb : c ∉ buf) : c ∉ p.writePath buf := by
  have c2 : c ≠ '/' := by rcases hc with rfl | rfl <;> decide
  have c3 : c ≠ '.' := by rcases hc with rfl | rfl <;> decide
  have hP := EscapedPath_noMark p c hc
  unfold URL.writePath
  dsimp only
  split_ifs <;>
    (try simp only [List.mem_append, List.mem_cons, List.mem_singleton, List.not_mem_nil,
      or_false, not_or]) <;>
    tauto

/-- The text `URL.String` writes before the query holds neither `?` nor `#`. -/
theorem stringHead_noMark (p : URL) (hS : noMark p.Scheme) (hO : noMark p.Opaque) :
    noMark p.stringHead := by
  intro c hc
  have c1 : c ≠ ':' := by rcases hc with rfl | rfl <;> decide
  have hb0 : c ∉ (if p.Scheme ≠ [] then p.Scheme ++ [':'] else []) := by
    split_ifs
    · simp only [List.mem_append, List.mem_singleton, not_or]
      exact ⟨hS c hc, c1⟩
    · simp
  unfold URL.stringHead
  dsimp only
  generalize (if p.Scheme ≠ [] then p.Scheme ++ [':'] else []) = buf0 at hb0 ⊢
  split_ifs
  · simp only [List.mem_append, not_or]
    exact ⟨hb0, hO c hc⟩
  · exact writePath_no_mark p c hc _ (writeAuthority_no_mark p c hc _ hb0)

/-! ## Theorems -/

/-- C5. For every decoded response, `query` ends the process exactly when the
status is `error` and the message is empty or differs from both tolerated
messages; in every other case, a tolerated message under status `error`
included, it returns the response. -/
theorem query_fatal_iff (core : CoreErrors) (s : Server) (send : AdminSocketRequest)
    (recv : AdminSocketResponse) (rest : List Reply)
    (h : s.conn.incoming = Reply.response recv :: rest) :
    ((query core s send).2 = Outcome.fatal ↔
      (recv.Status = "error".toList ∧
        (recv.Error = [] ∨
          (recv.Error ≠ core.ErrLinkNotConfigured ∧
            recv.Error ≠ core.ErrLinkAlreadyConfigured)))) ∧
    (¬ (recv.Status = "error".toList ∧
        (recv.Error = [] ∨
          (recv.Error ≠ core.ErrLinkNotConfigured ∧
            recv.Error ≠ core.ErrLinkAlreadyConfigured))) →
      (query core s send).2 = Outcome.ok recv) := by
  rw [query_response core s send recv rest h]
  by_cases hf : fatalResponse core recv
  · exact ⟨⟨fun _ => hf, fun _ => by simp [hf]⟩, fun hn => absurd hf hn⟩
  · refine ⟨⟨fun hq => ?_, fun hc => absurd hc hf⟩, fun _ => by simp [hf]⟩
    simp [hf] at hq

/-- C5, witness: `link already configured` answered to an `addpeer` request is
returned as a success, `internal error` ends the process. -/
theorem query_fatal_iff_witness :
    (query specCoreErrors
        { conn := { incoming := [Reply.response (errorResponse "link already configured".toList)] } }
        { Name := "addpeer".toList, Arguments := some [("uri".toList, "tcp://2.2.2.2:1".toList)] }).2
      = Outcome.ok (errorResponse "link already configured".toList) ∧
    (query specCoreErrors
        { conn := { incoming := [Reply.response (errorResponse "internal error".toList)] } }
        { Name := "addpeer".toList, Arguments := some [("uri".toList, "tcp://2.2.2.2:1".toList)] }).2
      = Outcome.fatal :=
  ⟨(query_fatal_iff specCoreErrors _ _ (errorResponse "link already configured".toList) [] rfl).2
      (by decide),
    (query_fatal_iff specCoreErrors _ _ (errorResponse "internal error".toList) [] rfl).1.mpr
      (by decide)⟩

/-- C2. In a cycle whose verdict is false and in which no response is fatal,
the requests handed to the control surface are `getpeers` followed by exactly
one `addpeer` per fallback peer, in list order, each carrying the configured
URI unchanged, whatever the snapshot holds; the cycle completes. -/
theorem cycle_adds_every_fallback_peer (core : CoreErrors) (s : Server)
    (routers soloPeers : List Str) (recv : AdminSocketResponse) (peers : List PeerEntry)
    (answers : List AdminSocketResponse) (tail : List Reply)
    (hin : s.conn.incoming = Reply.response recv :: (answers.map Reply.response ++ tail))
    (hrecv : ¬ fatalResponse core recv)
    (hpeers : recv.Response = some peers)
    (hverdict : hasLocalPeers { s with peers := some peers } routers = Outcome.ok false)
    (hlen : answers.length = soloPeers.length)
    (hans : ∀ r ∈ answers, ¬ fatalResponse core r) :
    cycle core routers soloPeers s =
      ({ conn :=
          { incoming := tail
            written := s.conn.written ++
              { Name := "getpeers".toList, Arguments := none, KeepAlive := true } ::
                soloPeers.map fun uri =>
                  { Name := "addpeer".toList, Arguments := some [("uri".toList, uri)],
                    KeepAlive := true } }
         peers := some peers },
        Outcome.ok ()) := by
  have hq := query_response core s { Name := "getpeers".toList } recv _ hin
  simp only [hrecv, if_false] at hq
  have hv : hasLocalPeersLoop routers peers = Outcome.ok false := by
    simpa [hasLocalPeers] using hverdict
  simp only [cycle, GetPeers, hq, hpeers, hasLocalPeers, hv]
  rw [setPeers_add core soloPeers _ answers tail rfl hlen hans]
  simp

/-- C2, witness: snapshot without a trusted local router, fallback list
`tcp://2.2.2.2:1?key=abc`: one `addpeer` with the query string kept. -/
theorem cycle_adds_every_fallback_peer_witness :
    cycle specCoreErrors [keyK] ["tcp://2.2.2.2:1?key=abc".toList]
        { conn :=
            { incoming :=
                [Reply.response { Status := "success".toList, Response := some [fallbackEntry] },
                  Reply.response (errorResponse "link already configured".toList)] } } =
      ({ conn :=
          { incoming := []
            written :=
              [{ Name := "getpeers".toList, Arguments := none, KeepAlive := true },
                { Name := "addpeer".toList,
                  Arguments := some [("uri".toList, "tcp://2.2.2.2:1?key=abc".toList)],
                  KeepAlive := true }] }
         peers := some [fallbackEntry] },
        Outcome.ok ()) :=
  cycle_adds_every_fallback_peer specCoreErrors
    { conn :=
        { incoming :=
            [Reply.response { Status := "success".toList, Response := some [fallbackEntry] },
              Reply.response (errorResponse "link already configured".toList)] } }
    [keyK] ["tcp://2.2.2.2:1?key=abc".toList]
    { Status := "success".toList, Response := some [fallbackEntry] } [fallbackEntry]
    [errorResponse "link already configured".toList] [] rfl (by decide) rfl (by decide) rfl
    (by decide)

/-- C7. Peers that are down never influence the verdict: the outcome of
`hasLocalPeers` (true, false, fatal exit or panic) equals its outcome on the
snapshot from which every entry with `Up = false` is deleted. -/
theorem hasLocalPeers_ignores_down_peers (s : Server) (keys : List Str) :
    hasLocalPeers s keys =
      hasLocalPeers { s with peers := s.peers.map (List.filter fun peer => peer.Up) } keys := by
  unfold hasLocalPeers
  cases hp : s.peers with
  | none => rfl
  | some peers => exact hasLocalPeersLoop_filter_up keys peers

/-- C8. Peers whose URI host is not an IP literal never influence the verdict:
the outcome of `hasLocalPeers` equals its outcome on the snapshot from which
every entry whose URI parses and whose host `netip.ParseAddr` rejects is
deleted, whether or not such an entry is up or carries a trusted key. -/
theorem hasLocalPeers_ignores_non_ip_hosts (s : Server) (keys : List Str) :
    hasLocalPeers s keys =
      hasLocalPeers
        { s with peers := s.peers.map (List.filter fun peer => !hostNotIP peer) } keys := by
  unfold hasLocalPeers
  cases hp : s.peers with
  | none => rfl
  | some peers => exact hasLocalPeersLoop_filter_ip keys peers

/-- C3, counterexample: the snapshot holds an up, link-local, trusted entry,
yet `hasLocalPeers` does not return true: the up entry with a malformed URI
placed before it ends the process. -/
theorem hasLocalPeers_fatal_before_trusted :
    (∃ e ∈ [bogusPeer, localRouter], trustedLocalPeer [keyK] e = true) ∧
    hasLocalPeers { conn := { incoming := [] }, peers := some [bogusPeer, localRouter] } [keyK]
      = Outcome.fatal ∧
    hasLocalPeers { conn := { incoming := [] }, peers := some [bogusPeer, localRouter] } [keyK]
      ≠ Outcome.ok true := by
  refine ⟨⟨localRouter, by simp, by decide⟩, by decide, by decide⟩

/-- C3, amended. If the snapshot holds a trusted local router (up, link-local
host, trusted key) and every up entry placed before it has a URI that
`url.Parse` accepts, `hasLocalPeers` returns true, whatever the entries after
it and the down entries are. -/
theorem hasLocalPeers_true_of_trusted_local (s : Server) (keys : List Str)
    (pre post : List PeerEntry) (e : PeerEntry)
    (hs : s.peers = some (pre ++ e :: post))
    (hpre : ∀ p ∈ pre, p.Up = true → Parse p.URI ≠ none)
    (he : trustedLocalPeer keys e = true) :
    hasLocalPeers s keys = Outcome.ok true := by
  have hh : hasLocalPeers s keys = hasLocalPeersLoop keys (pre ++ e :: post) := by
    simp only [hasLocalPeers, hs]
  rw [hh]
  rcases hasLocalPeersLoop_append_of_parse keys (e :: post) pre hpre with h | h
  · exact h
  · rw [h]
    exact hasLocalPeersLoop_head_trusted keys e post he

/-- C3, witness: a down entry with a malformed URI and an up non-IP entry
before the trusted local router, a malformed up entry after it. -/
theorem hasLocalPeers_true_of_trusted_local_witness :
    hasLocalPeers
        { conn := { incoming := [] }
          peers := some ([{ bogusPeer with Up := false },
            { URI := "tls://example.com:443".toList, PublicKey := keyK, Up := true }]
              ++ localRouter :: [bogusPeer]) } [keyK] = Outcome.ok true :=
  hasLocalPeers_true_of_trusted_local _ [keyK]
    [{ bogusPeer with Up := false },
      { URI := "tls://example.com:443".toList, PublicKey := keyK, Up := true }]
    [bogusPeer] localRouter rfl (by decide) (by decide)

/-- C4, counterexample: no entry is a trusted local router, yet
`hasLocalPeers` does not return false: an up entry with a malformed URI ends
the process, here even with an empty trusted set. -/
theorem hasLocalPeers_fatal_without_trusted :
    (∀ e ∈ [bogusPeer], trustedLocalPeer [] e = false) ∧
    hasLocalPeers { conn := { incoming := [] }, peers := some [bogusPeer] } [] = Outcome.fatal ∧
    hasLocalPeers { conn := { incoming := [] }, peers := some [bogusPeer] } []
      ≠ Outcome.ok false := by
  refine ⟨by decide, by decide, by decide⟩

/-- C4, amended. If no entry of the snapshot is at once up, link-local and
trusted, and every up entry has a URI that `url.Parse` accepts, then
`hasLocalPeers` returns false. -/
theorem hasLocalPeers_false_of_no_trusted_local (s : Server) (keys : List Str)
    (peers : List PeerEntry) (hs : s.peers = some peers)
    (hno : ∀ p ∈ peers, trustedLocalPeer keys p = false)
    (hparse : ∀ p ∈ peers, p.Up = true → Parse p.URI ≠ none) :
    hasLocalPeers s keys = Outcome.ok false := by
  have hh : hasLocalPeers s keys = hasLocalPeersLoop keys peers := by
    simp only [hasLocalPeers, hs]
  rw [hh]
  exact hasLocalPeersLoop_false keys peers hno hparse

/-- C4, witness: the empty snapshot; a link-local router with an empty trusted
set; a trusted key on a host that is not link-local. -/
theorem hasLocalPeers_false_of_no_trusted_local_witness :
    hasLocalPeers { conn := { incoming := [] }, peers := some [] } [keyK] = Outcome.ok false ∧
    hasLocalPeers { conn := { incoming := [] }, peers := some [localRouter] } []
      = Outcome.ok false ∧
    hasLocalPeers { conn := { incoming := [] }, peers := some [fallbackEntry, { bogusPeer with Up := false }] }
      [keyK] = Outcome.ok false :=
  ⟨hasLocalPeers_false_of_no_trusted_local _ [keyK] [] rfl (by decide) (by decide),
    hasLocalPeers_false_of_no_trusted_local _ [] [localRouter] rfl (by decide) (by decide),
    hasLocalPeers_false_of_no_trusted_local _ [keyK] _ rfl (by decide) (by decide)⟩

/-- C1 (the code at the specification's witness). With snapshot
`[{tcp://[fe80::1]:1, K, up}]` and fallback `tcp://2.2.2.2:1`, absent from
the snapshot, the removal path hands a `removepeer` request to the control
surface, whatever it replies, and a whole cycle of `run` on that scenario
writes `getpeers` then `removepeer`; when the snapshot does hold
`tcp://2.2.2.2:1`, the removal path returns without a request.  The
membership test of `SetPeer` is the reverse of the one its comment describes. -/
theorem SetPeer_removal_membership_reversed (incoming : List Reply) :
    (SetPeer specCoreErrors { conn := { incoming := incoming }, peers := some [localRouter] }
        "tcp://2.2.2.2:1".toList false).1.conn.written =
      [{ Name := "removepeer".toList,
         Arguments := some [("uri".toList, "tcp://2.2.2.2:1".toList)], KeepAlive := true }] ∧
    cycle specCoreErrors [keyK] ["tcp://2.2.2.2:1".toList]
        { conn :=
            { incoming :=
                [Reply.response { Status := "success".toList, Response := some [localRouter] },
                  Reply.response { Status := "success".toList }] } } =
      ({ conn :=
          { incoming := []
            written :=
              [{ Name := "getpeers".toList, Arguments := none, KeepAlive := true },
                { Name := "removepeer".toList,
                  Arguments := some [("uri".toList, "tcp://2.2.2.2:1".toList)],
                  KeepAlive := true }] }
         peers := some [localRouter] },
        Outcome.ok ()) ∧
    SetPeer specCoreErrors { conn := { incoming := incoming }, peers := some [fallbackEntry] }
        "tcp://2.2.2.2:1".toList false =
      ({ conn := { incoming := incoming, written := [] }, peers := some [fallbackEntry] },
        Outcome.ok ()) := by
  have hs : stripQuery "tcp://2.2.2.2:1".toList = some "tcp://2.2.2.2:1".toList := by decide
  have h1 : List.any [localRouter]
      (fun peer => decide ((stripQuery "tcp://2.2.2.2:1".toList).getD [] = peer.URI)) = false := by
    decide
  have h2 : List.any [fallbackEntry]
      (fun peer => decide ("tcp://2.2.2.2:1".toList = peer.URI)) = true := by decide
  refine ⟨?_, by decide, ?_⟩
  · rw [SetPeer_removal_written_of_absent specCoreErrors _ _ [localRouter] rfl h1, hs]
    rfl
  · simp only [SetPeer, hs, Option.getD_some, h2]
    rfl

/-- C9 (the code on bare `host:port` endpoints). For `127.0.0.1:9001`
`url.Parse` fails and `NewServer` panics on the nil URL before any dial; for
`localhost:9001` the text parses with scheme `localhost` and `NewServer`
returns the error `protocol not supported`.  Neither dials TCP. -/
theorem NewServer_bare_host_port_never_dials (dial : Str → Str → Except Str Conn) :
    NewServer dial "127.0.0.1:9001".toList = Outcome.panic ∧
    NewServer dial "localhost:9001".toList =
      Outcome.ok (Except.error "protocol not supported".toList) := by
  have h1 : Parse "127.0.0.1:9001".toList = none := by decide
  have h2 : Parse "localhost:9001".toList =
      some { Scheme := "localhost".toList, Opaque := "9001".toList } := by decide
  have h3 : ToLower "localhost".toList ≠ "unix".toList := by decide
  have h4 : ToLower "localhost".toList ≠ "tcp".toList := by decide
  constructor
  · simp only [NewServer, h1]
  · simp only [NewServer, h2, h3, h4, if_false]

/-- C10 (the code on the two panic paths). When `zfg.Parse` fails, and when
`NewServer` fails to connect, `run` returns 0 to `main`, so the process ends
with exit status 0: the `return 1` of the deferred closure is discarded.  (A
condition raised with `logger.Fatal`, such as a router key of the wrong
length, does end the process with status 1.) -/
theorem main_exit_status_zero_after_panic (core : CoreErrors) (endpoint : Str)
    (routers soloPeers : List Str) (dial : Str → Str → Except Str Conn) (n : Nat) :
    main core
        { parseFails := true, endpoint := endpoint, routers := routers,
          soloPeers := soloPeers, dial := dial } n = some 0 ∧
    main core
        { parseFails := false, endpoint := "unix:///var/run/yggdrasil/yggdrasil.sock".toList,
          routers := [keyK], soloPeers := ["tcp://2.2.2.2:1".toList],
          dial := fun _ _ => Except.error "connection refused".toList } n = some 0 ∧
    main core
        { parseFails := false, endpoint := endpoint, routers := ["short".toList],
          soloPeers := soloPeers, dial := dial } n = some 1 := by
  have h1 : Parse "unix:///var/run/yggdrasil/yggdrasil.sock".toList =
      some { Scheme := "unix".toList, Path := "/var/run/yggdrasil/yggdrasil.sock".toList } := by
    decide
  have h2 : ToLower "unix".toList = "unix".toList := by decide
  have h3 : List.any [keyK] (fun key => decide (key.length ≠ 64)) = false := by decide
  have h4 : List.any ["tcp://2.2.2.2:1".toList] (fun uri => (Parse uri).isNone) = false := by
    decide
  have h5 : ¬ ("unix:///var/run/yggdrasil/yggdrasil.sock".toList.length < 7) := by decide
  have h6 : List.any ["short".toList] (fun key => decide (key.length ≠ 64)) = true := by decide
  refine ⟨?_, ?_, ?_⟩
  · simp [main, run, runBody]
  · simp only [main, run, runBody, NewServer, h1, h2, h3, h4, h5, if_true, if_false]
    simp
  · simp only [main, run, runBody, h6, if_true, if_false]
    simp

/-- C6, counterexample: a fallback URI ending in a bare `?` parses and
`stripQuery` returns it with the `?` still in place; and for
`TCP://1.2.3.4:1234?key=abc` the result is the re-serialised
`tcp://1.2.3.4:1234`, not the configured text with the query cut off. -/
theorem stripQuery_not_textual_removal :
    (Parse "tcp://1.2.3.4:1234?".toList ≠ none ∧
      stripQuery "tcp://1.2.3.4:1234?".toList = some "tcp://1.2.3.4:1234?".toList ∧
      '?' ∈ "tcp://1.2.3.4:1234?".toList) ∧
    (Parse "TCP://1.2.3.4:1234?key=abc".toList ≠ none ∧
      stripQuery "TCP://1.2.3.4:1234?key=abc".toList = some "tcp://1.2.3.4:1234".toList ∧
      "tcp://1.2.3.4:1234".toList ≠ "TCP://1.2.3.4:1234".toList) := by
  refine ⟨⟨by decide, by decide, by decide⟩, by decide, by decide, by decide⟩

/-- C6, amended. For every fallback URI that parses and does not end in a bare
`?` (`ForceQuery` false), `stripQuery` returns the re-serialisation of the
parsed URI without its query: the head written by `URL.String` (scheme,
opaque text or authority, escaped path), which holds neither `?` nor `#`,
followed by `#` and the escaped fragment when there is a fragment. -/
theorem stripQuery_removes_query (thatUrl : Str) (p : URL) (h : Parse thatUrl = some p)
    (hq : p.ForceQuery = false) :
    stripQuery thatUrl =
      some (p.stringHead ++ (if p.Fragment ≠ [] then '#' :: EscapedFragment p else [])) ∧
    '?' ∉ p.stringHead ∧ '#' ∉ p.stringHead := by
  obtain ⟨hS, hO⟩ := Parse_noMark thatUrl p h
  refine ⟨?_, stringHead_noMark p hS hO '?' (Or.inl rfl),
    stringHead_noMark p hS hO '#' (Or.inr rfl)⟩
  unfold stripQuery
  rw [h]
  simp only [URL.String, URL.stringHead, URL.writePath, URL.writeAuthority, EscapedPath,
    EscapedFragment, hq]
  simp

/-- C6, witness: for `tcp://1.2.3.4:1234?key=abc` the result is exactly
`tcp://1.2.3.4:1234`, which holds no `?`. -/
theorem stripQuery_removes_query_witness :
    stripQuery "tcp://1.2.3.4:1234?key=abc".toList = some "tcp://1.2.3.4:1234".toList ∧
    '?' ∉ "tcp://1.2.3.4:1234".toList :=
  ⟨(stripQuery_removes_query "tcp://1.2.3.4:1234?key=abc".toList
      { Scheme := "tcp".toList, Host := "1.2.3.4:1234".toList, RawQuery := "key=abc".toList }
      (by decide) rfl).1.trans (by decide),
    by decide⟩

end Peerman
